import Mathlib

/-!
Shallow embedding of the task store and validation engine of
`src/todolist.py` (class `TaskManager`), together with proofs about the
stated properties of that code.

Modelling conventions:
* Python strings are Lean `String`s; most logic works on their `.data`
  character lists (Python `len`, indexing and slicing are over code points,
  as `List Char` is here).
* The JSON store (a Python dict mapping group names to task lists, with
  insertion order) is an association list `Store := List (String × List Task)`;
  dict membership, assignment, deletion and in-place list append are embedded
  as `lookup`, `setVal`, `eraseKey`, `appendToKey` below, all acting on the
  first (in a dict: only) entry with the given key.
* Console output and logging are ignored; `save_data` is recorded as the
  snapshot appended to a `saves` list in each operation's result;
  `Prompt.ask` confirmation dialogs are counted in a `prompts` field and
  their answer is an explicit `confirm : Bool` argument.
* Exceptions raised by an operation (`InvalidGroupNameError`,
  `InvalidDescriptionError`, the `ValueError` of `int()`) become explicit
  outcome values; since Python state mutation up to the raise survives, the
  result also carries the (possibly partially mutated) store.
-/

namespace TodoList

/-- A task object `{"id": ..., "description": ..., "completed": ...}` as
built by `TaskManager.add_tasks`. -/
structure Task where
  id : Int
  description : String
  completed : Bool
deriving Repr, DecidableEq

/-- The in-memory store `self.tasks`: a dict from group name to task list,
embedded as an insertion-ordered association list. -/
abbrev Store := List (String × List Task)

/-- Dict lookup `self.tasks[g]` (as an `Option` for absent keys). -/
def lookup : Store → String → Option (List Task)
  | [], _ => none
  | e :: rest, g => if e.1 = g then some e.2 else lookup rest g

/-- Dict membership test `g in self.tasks`. -/
def hasKey (s : Store) (g : String) : Bool :=
  (lookup s g).isSome

/-- Value of a key, defaulting to `[]` when absent (used to state theorems;
the operations only use it where the key is known present or freshly set). -/
def getKey (s : Store) (g : String) : List Task :=
  (lookup s g).getD []

/-- Dict assignment `self.tasks[g] = v`: replace the value of an existing
key in place, or append a new entry (Python dicts keep insertion order). -/
def setVal : Store → String → List Task → Store
  | [], g, v => [(g, v)]
  | e :: rest, g, v => if e.1 = g then (g, v) :: rest else e :: setVal rest g v

/-- Dict deletion `del self.tasks[g]`. -/
def eraseKey : Store → String → Store
  | [], _ => []
  | e :: rest, g => if e.1 = g then rest else e :: eraseKey rest g

/-- In-place `self.tasks[g].append(...)` for a batch of tasks: extends the
list stored under `g` (the first, in a dict the only, entry with that key). -/
def appendToKey : Store → String → List Task → Store
  | [], _, _ => []
  | e :: rest, g, ts => if e.1 = g then (e.1, e.2 ++ ts) :: rest else e :: appendToKey rest g ts

/-- MAX_DESCRIPTION_LENGTH constant of the source. -/
def MAX_DESCRIPTION_LENGTH : Nat := 200

/-- Membership in the regex character class `[<>:"/\\|?*\x00-\x1F]` of
FORBIDDEN_CHARACTERS. -/
def isForbiddenChar (c : Char) : Bool :=
  c = '<' || c = '>' || c = ':' || c = '"' || c = '/' || c = '\\' ||
    c = '|' || c = '?' || c = '*' || decide (c.toNat ≤ 31)

/-- FORBIDDEN_WORDS list of the source, in source order. -/
def FORBIDDEN_WORDS : List String :=
  [ "sex", "violence", "drugs", "hate", "abuse", "illegal", "adult",
    "explicit", "harassment", "discrimination", "extremism"]

/-- Substring search (Python `needle in haystack`, `re`-style scan): at each
position, test whether the pattern starts there. -/
def containsSub (p : List Char) : List Char → Bool
  | [] => p.isEmpty
  | c :: rest => p.isPrefixOf (c :: rest) || containsSub p rest

/-- The characters of the literal alternative `http://` of
FORBIDDEN_URL_PATTERN. -/
def httpChars : List Char :=
  ['h', 't', 't', 'p', ':', '/', '/']

/-- The characters of the literal alternative `https://` of
FORBIDDEN_URL_PATTERN. -/
def httpsChars : List Char :=
  ['h', 't', 't', 'p', 's', ':', '/', '/']

/-- FORBIDDEN_URL_PATTERN.search: a match of the regex `http(s)?://` is
exactly an occurrence of `http://` or `https://`. -/
def urlSearch (l : List Char) : Bool :=
  containsSub httpChars l || containsSub httpsChars l

/-- Python `name.lower()` on the ASCII fragment relevant to the denylist. -/
def lowerChars (s : String) : List Char :=
  s.data.map Char.toLower

/-- TaskManager.is_valid_group_name: no forbidden character and no
denylisted word occurring (case-insensitively) in the name. -/
def is_valid_group_name (name : String) : Bool :=
  !(name.data.any isForbiddenChar ||
      FORBIDDEN_WORDS.any (fun w => containsSub w.data (lowerChars name)))

/-- TaskManager.is_valid_description: length bound and no URL match. -/
def is_valid_description (description : String) : Bool :=
  decide (description.data.length ≤ MAX_DESCRIPTION_LENGTH) && !(urlSearch description.data)

/-- Python `str.strip()` (whitespace from both ends). -/
def stripChars (l : List Char) : List Char :=
  ((l.dropWhile Char.isWhitespace).reverse.dropWhile Char.isWhitespace).reverse

/-- Python `task_ids.split(',')` on the character list: splits at every
comma, yielding `[[]]` for the empty string like Python's `''.split(',')`. -/
def splitOnComma : List Char → List (List Char)
  | [] => [[]]
  | c :: rest =>
    let r := splitOnComma rest
    if c = ',' then [] :: r
    else
      match r with
      | [] => [[c]]
      | h :: t => (c :: h) :: t

/-- Digit run of a Python `int()` literal: digits with single underscores
allowed between digits (`acc` is the value read so far). -/
def parseDigitsTail (acc : Nat) : List Char → Option Nat
  | [] => some acc
  | c :: rest =>
    if c.isDigit then parseDigitsTail (acc * 10 + (c.toNat - 48)) rest
    else
      if c = '_' then
        match rest with
        | [] => none
        | d :: rest2 =>
          if d.isDigit then parseDigitsTail (acc * 10 + (d.toNat - 48)) rest2 else none
      else none

/-- Unsigned part of a Python `int()` literal: a nonempty digit run. -/
def parseUnsigned : List Char → Option Nat
  | [] => none
  | c :: rest => if c.isDigit then parseDigitsTail (c.toNat - 48) rest else none

/-- Python `int(...)` on an already `strip`ped string: optional sign, then a
digit run; `none` models the raised `ValueError`. -/
def pythonInt (l : List Char) : Option Int :=
  match l with
  | '+' :: rest => (parseUnsigned rest).map (fun n => (n : Int))
  | '-' :: rest => (parseUnsigned rest).map (fun n => -(n : Int))
  | _ => (parseUnsigned l).map (fun n => (n : Int))

/-- The list comprehension `[int(id.strip()) for id in task_ids.split(',')]`
of mark_tasks_complete: `none` when some entry makes `int()` raise. -/
def parseAllInts : List (List Char) → Option (List Int)
  | [] => some []
  | e :: rest =>
    match pythonInt (stripChars e), parseAllInts rest with
    | some i, some is => some (i :: is)
    | _, _ => none

/-- Python `str.isdigit()` on the ASCII fragment: nonempty and all digits. -/
def pyIsDigit (l : List Char) : Bool :=
  !l.isEmpty && l.all Char.isDigit

/-- Value of `int()` on an all-digit string. -/
def digitsToInt (l : List Char) : Int :=
  Int.ofNat (l.foldl (fun a c => a * 10 + (c.toNat - 48)) 0)

/-- The guarded comprehension of delete_tasks:
`[int(id.strip()) for id in task_ids.split(',') if id.strip().isdigit()]`. -/
def parseDigitIds (entries : List (List Char)) : List Int :=
  (entries.map stripChars).filterMap
    (fun e => if pyIsDigit e then some (digitsToInt e) else none)

/-- Validation/parse errors raised by add_tasks (the two exception classes
of the source). -/
inductive TMError
  | invalidGroupName
  | invalidDescription
deriving Repr, DecidableEq

/-- Result of add_tasks: final in-memory store, snapshots written by
save_data during the call (in order), and the raised exception if any. -/
structure AddResult where
  store : Store
  saves : List Store
  error : Option TMError
deriving Repr, DecidableEq

/-- The `max((task.get('id', 0) for task in ...), default=0)` of add_tasks. -/
def listMaxId : List Task → Int
  | [] => 0
  | t :: rest => rest.foldl (fun a u => max a u.id) t.id

/-- The `for i, description in enumerate(descriptions, start=start_id)` loop
of add_tasks: appends a task per valid description, stopping with an
`InvalidDescriptionError` at the first invalid one (earlier appends stay). -/
def addLoop (g : String) : Store → Int → List String → Store × Option TMError
  | s, _, [] => (s, none)
  | s, i, d :: rest =>
    if is_valid_description d then
      addLoop g (appendToKey s g [⟨i, d, false⟩]) (i + 1) rest
    else (s, some .invalidDescription)

/-- TaskManager.add_tasks. -/
def add_tasks (s : Store) (group_name : String) (descriptions : List String) : AddResult :=
  if is_valid_group_name group_name then
    let s1 := if hasKey s group_name then s else setVal s group_name []
    let start_id := listMaxId (getKey s1 group_name) + 1
    match addLoop group_name s1 start_id descriptions with
    | (s2, none) => ⟨s2, [s2], none⟩
    | (s2, some e) => ⟨s2, [], some e⟩
  else ⟨s, [], some .invalidGroupName⟩

/-- Outcome of edit_task: success, raised InvalidDescriptionError, or one of
the two soft "not found" reports. -/
inductive EditOutcome
  | ok
  | invalidDescription
  | taskNotFound
  | groupNotFound
deriving Repr, DecidableEq

/-- Result of edit_task. -/
structure EditResult where
  store : Store
  saves : List Store
  outcome : EditOutcome
deriving Repr, DecidableEq

/-- The task loop of edit_task: replace the description of the first task
with the given id, returning `none` when no task matches. -/
def editList (task_id : Int) (nd : String) : List Task → Option (List Task)
  | [] => none
  | t :: rest =>
    if t.id = task_id then some (Task.mk t.id nd t.completed :: rest)
    else (editList task_id nd rest).map (fun l => t :: l)

/-- TaskManager.edit_task. -/
def edit_task (s : Store) (group_name : String) (task_id : Int) (new_description : String) :
    EditResult :=
  if is_valid_description new_description then
    if hasKey s group_name then
      match editList task_id new_description (getKey s group_name) with
      | some ts =>
        let s1 := setVal s group_name ts
        ⟨s1, [s1], .ok⟩
      | none => ⟨s, [], .taskNotFound⟩
    else ⟨s, [], .groupNotFound⟩
  else ⟨s, [], .invalidDescription⟩

/-- Outcome of mark_tasks_complete: success, the uncaught ValueError of
`int()`, or the soft unknown-group report. -/
inductive MarkOutcome
  | ok
  | valueError
  | groupNotFound
deriving Repr, DecidableEq

/-- Result of mark_tasks_complete; `prompts` counts delete-group
confirmation dialogs shown during the call. -/
structure MarkResult where
  store : Store
  saves : List Store
  prompts : Nat
  outcome : MarkOutcome
deriving Repr, DecidableEq

/-- The body of the marking loop: `if task["id"] in ids: task["completed"] = True`. -/
def markOne (ids : List Int) (t : Task) : Task :=
  if ids.contains t.id then Task.mk t.id t.description true else t

/-- TaskManager.mark_tasks_complete; `confirm` is the caller's answer to the
delete-group dialog (unused when no dialog is shown). -/
def mark_tasks_complete (confirm : Bool) (s : Store) (group_name : String)
    (task_ids : String) : MarkResult :=
  if hasKey s group_name then
    match parseAllInts (splitOnComma task_ids.data) with
    | none => ⟨s, [], 0, .valueError⟩
    | some ids =>
      let newTasks := (getKey s group_name).map (markOne ids)
      let s1 := setVal s group_name newTasks
      if newTasks.all (fun t => t.completed) then
        if confirm then
          let s2 := eraseKey s1 group_name
          ⟨s2, [s1, s2], 1, .ok⟩
        else ⟨s1, [s1], 1, .ok⟩
      else ⟨s1, [s1], 0, .ok⟩
  else ⟨s, [], 0, .groupNotFound⟩

/-- Result of delete_tasks; `groupFound` is false on the soft
unknown-group report. -/
structure DeleteResult where
  store : Store
  saves : List Store
  prompts : Nat
  groupFound : Bool
deriving Repr, DecidableEq

/-- The task list delete_tasks leaves under the group after the filtering
comprehension. -/
def remainingTasks (s : Store) (g : String) (task_ids : String) : List Task :=
  (getKey s g).filter
    (fun t => !((parseDigitIds (splitOnComma task_ids.data)).contains t.id))

/-- TaskManager.delete_tasks; `confirm` answers the delete-group dialog
shown when the group has become empty. Note the source calls save_data
exactly once, after the confirmation block. -/
def delete_tasks (confirm : Bool) (s : Store) (group_name : String)
    (task_ids : String) : DeleteResult :=
  if hasKey s group_name then
    let newTasks := remainingTasks s group_name task_ids
    let s0 := setVal s group_name newTasks
    if newTasks.isEmpty then
      if confirm then
        let s2 := eraseKey s0 group_name
        ⟨s2, [s2], 1, true⟩
      else ⟨s0, [s0], 1, true⟩
    else ⟨s0, [s0], 0, true⟩
  else ⟨s, [], 0, false⟩

/-- Environment seen by load_data: the file is missing, or it was read and
handed to `json.load` (which yields a store or raises `JSONDecodeError`,
the `none` case), or reading raised some other exception. -/
inductive FileRead
  | missing
  | parsed (result : Option Store)
  | readError
deriving DecidableEq

/-- Result of load_data: the mapping returned to the caller and whether an
error message was reported (printed/logged). -/
structure LoadResult where
  store : Store
  reported : Bool
deriving Repr, DecidableEq

/-- TaskManager.load_data: total on every environment, i.e. no exception
escapes the store boundary. -/
def load_data : FileRead → LoadResult
  | .missing => ⟨[], false⟩
  | .parsed (some s) => ⟨s, false⟩
  | .parsed none => ⟨[], true⟩
  | .readError => ⟨[], true⟩

/-- Batch of tasks with consecutive ids starting at `start`, as the spec
describes id assignment inside one add_tasks call (first task `start`, then
incremented per task). -/
def specBatch (start : Int) : List String → List Task
  | [] => []
  | d :: rest => ⟨start, d, false⟩ :: specBatch (start + 1) rest

/-- The store invariant claimed by the spec: every present group holds at
least one task. -/
def noEmptyGroup (s : Store) : Prop :=
  ∀ p ∈ s, p.2 ≠ ([] : List Task)

end TodoList

namespace TodoList

/-! ### Helper lemmas about the substring scan -/

theorem containsSub_iff (p l : List Char) : containsSub p l = true ↔ p <:+: l := by
  induction l with
  | nil => simp [containsSub, List.isEmpty_iff]
  | cons c rest ih =>
    simp [containsSub, Bool.or_eq_true, ih, List.infix_cons_iff]

/-! ### Helper lemmas about the dict embedding -/

theorem lookup_eq_some_getKey {s : Store} {g : String} (h : hasKey s g = true) :
    lookup s g = some (getKey s g) := by
  unfold hasKey at h
  unfold getKey
  cases hl : lookup s g with
  | none => rw [hl] at h; simp at h
  | some l => simp

theorem getKey_of_not_hasKey {s : Store} {g : String} (h : hasKey s g = false) :
    getKey s g = [] := by
  unfold hasKey at h
  unfold getKey
  cases hl : lookup s g with
  | none => simp
  | some l => rw [hl] at h; simp at h

theorem lookup_mem {s : Store} {g : String} {l : List Task} (h : lookup s g = some l) :
    ∃ p ∈ s, p.1 = g ∧ p.2 = l := by
  induction s with
  | nil => simp [lookup] at h
  | cons e rest ih =>
    by_cases he : e.1 = g
    · simp [lookup, he] at h
      exact ⟨e, List.mem_cons_self e rest, he, h⟩
    · simp [lookup, he] at h
      obtain ⟨p, hp, h1, h2⟩ := ih h
      exact ⟨p, List.mem_cons_of_mem e hp, h1, h2⟩

theorem lookup_setVal_self (s : Store) (g : String) (v : List Task) :
    lookup (setVal s g v) g = some v := by
  induction s with
  | nil => simp [setVal, lookup]
  | cons e rest ih =>
    by_cases he : e.1 = g
    · simp [setVal, he, lookup]
    · simp [setVal, he, lookup, ih]

theorem lookup_setVal_ne {k g : String} (h : k ≠ g) (s : Store) (v : List Task) :
    lookup (setVal s g v) k = lookup s k := by
  induction s with
  | nil =>
    have h1 : ¬(g = k) := fun hh => h hh.symm
    simp [setVal, lookup, h1]
  | cons e rest ih =>
    by_cases he : e.1 = g
    · have h1 : ¬(g = k) := fun hh => h hh.symm
      simp [setVal, he, lookup, h1]
    · simp only [setVal, he, if_false, lookup, ih]

theorem lookup_eraseKey_ne {k g : String} (h : k ≠ g) (s : Store) :
    lookup (eraseKey s g) k = lookup s k := by
  induction s with
  | nil => simp [eraseKey]
  | cons e rest ih =>
    by_cases he : e.1 = g
    · have h1 : ¬(g = k) := fun hh => h hh.symm
      simp [eraseKey, he, lookup, h1]
    · simp only [eraseKey, he, if_false, lookup, ih]

theorem lookup_none_of_not_mem {s : Store} {g : String} (h : ∀ p ∈ s, p.1 ≠ g) :
    lookup s g = none := by
  induction s with
  | nil => rfl
  | cons e rest ih =>
    have he := h e (List.mem_cons_self e rest)
    simp only [lookup, he, if_false]
    exact ih (fun p hp => h p (List.mem_cons_of_mem e hp))

/-- Keys of a dict are unique; every store reachable from Python dicts
satisfies this. -/
def keysNodup (s : Store) : Prop :=
  (s.map Prod.fst).Nodup

theorem lookup_eraseKey_self {s : Store} {g : String} (h : keysNodup s) :
    lookup (eraseKey s g) g = none := by
  induction s with
  | nil => rfl
  | cons e rest ih =>
    unfold keysNodup at h
    simp only [List.map_cons, List.nodup_cons] at h
    by_cases he : e.1 = g
    · simp only [eraseKey, he, if_true]
      apply lookup_none_of_not_mem
      intro p hp hpg
      exact h.1 (he ▸ hpg ▸ List.mem_map_of_mem Prod.fst hp)
    · simp only [eraseKey, he, if_false, lookup]
      exact ih h.2

theorem eraseKey_setVal (s : Store) (g : String) (v : List Task) :
    eraseKey (setVal s g v) g = eraseKey s g := by
  induction s with
  | nil => simp [setVal, eraseKey]
  | cons e rest ih =>
    by_cases he : e.1 = g
    · simp [setVal, he, eraseKey]
    · simp [setVal, he, eraseKey, ih]

theorem mem_setVal {s : Store} {g : String} {v : List Task} {p : String × List Task}
    (h : p ∈ setVal s g v) : p ∈ s ∨ p = (g, v) := by
  induction s with
  | nil => simp [setVal] at h; right; exact h
  | cons e rest ih =>
    by_cases he : e.1 = g
    · simp only [setVal, he, if_true] at h
      rcases List.mem_cons.1 h with h1 | h1
      · right; exact h1
      · left; exact List.mem_cons_of_mem e h1
    · simp only [setVal, he, if_false] at h
      rcases List.mem_cons.1 h with h1 | h1
      · left; exact h1 ▸ List.mem_cons_self e rest
      · rcases ih h1 with h2 | h2
        · left; exact List.mem_cons_of_mem e h2
        · right; exact h2

theorem mem_eraseKey {s : Store} {g : String} {p : String × List Task}
    (h : p ∈ eraseKey s g) : p ∈ s := by
  induction s with
  | nil => simp [eraseKey] at h
  | cons e rest ih =>
    by_cases he : e.1 = g
    · simp only [eraseKey, he, if_true] at h
      exact List.mem_cons_of_mem e h
    · simp only [eraseKey, he, if_false] at h
      rcases List.mem_cons.1 h with h1 | h1
      · exact h1 ▸ List.mem_cons_self e rest
      · exact List.mem_cons_of_mem e (ih h1)

theorem setVal_of_not_hasKey {s : Store} {g : String} (h : hasKey s g = false)
    (v : List Task) : setVal s g v = s ++ [(g, v)] := by
  induction s with
  | nil => rfl
  | cons e rest ih =>
    unfold hasKey lookup at h
    by_cases he : e.1 = g
    · rw [if_pos he] at h; simp at h
    · rw [if_neg he] at h
      simp only [setVal, he, if_false, List.cons_append]
      rw [ih h]

/-! ### Helper lemmas about appendToKey and the add_tasks loop -/

theorem appendToKey_nil (s : Store) (g : String) : appendToKey s g [] = s := by
  induction s with
  | nil => rfl
  | cons e rest ih =>
    by_cases he : e.1 = g
    · simp only [appendToKey, if_pos he, List.append_nil]
    · simp [appendToKey, he, ih]

theorem appendToKey_appendToKey (s : Store) (g : String) (ts1 ts2 : List Task) :
    appendToKey (appendToKey s g ts1) g ts2 = appendToKey s g (ts1 ++ ts2) := by
  induction s with
  | nil => rfl
  | cons e rest ih =>
    by_cases he : e.1 = g
    · simp [appendToKey, he, List.append_assoc]
    · simp [appendToKey, he, ih]

theorem lookup_appendToKey_self (s : Store) (g : String) (ts : List Task) :
    lookup (appendToKey s g ts) g = (lookup s g).map (fun l => l ++ ts) := by
  induction s with
  | nil => rfl
  | cons e rest ih =>
    by_cases he : e.1 = g
    · simp [appendToKey, he, lookup]
    · simp [appendToKey, he, lookup, ih]

theorem lookup_appendToKey_ne {k g : String} (h : k ≠ g) (s : Store) (ts : List Task) :
    lookup (appendToKey s g ts) k = lookup s k := by
  induction s with
  | nil => rfl
  | cons e rest ih =>
    by_cases he : e.1 = g
    · have h1 : ¬(g = k) := fun hh => h hh.symm
      simp [appendToKey, he, lookup, h1]
    · simp only [appendToKey, he, if_false, lookup, ih]

theorem appendToKey_append_absent {s : Store} {g : String} (h : hasKey s g = false)
    (v ts : List Task) : appendToKey (s ++ [(g, v)]) g ts = s ++ [(g, v ++ ts)] := by
  induction s with
  | nil => simp [appendToKey]
  | cons e rest ih =>
    unfold hasKey lookup at h
    by_cases he : e.1 = g
    · rw [if_pos he] at h; simp at h
    · rw [if_neg he] at h
      show appendToKey (e :: (rest ++ [(g, v)])) g ts = e :: (rest ++ [(g, v ++ ts)])
      simp only [appendToKey, he, if_false]
      rw [ih h]

theorem addLoop_eq (g : String) (ds : List String) :
    ∀ (s : Store) (i : Int), addLoop g s i ds =
      (appendToKey s g (specBatch i (ds.takeWhile is_valid_description)),
        if ds.all is_valid_description then none else some TMError.invalidDescription) := by
  induction ds with
  | nil => intro s i; simp [addLoop, specBatch, appendToKey_nil]
  | cons d rest ih =>
    intro s i
    by_cases hd : is_valid_description d
    · simp only [addLoop, hd, if_true, ih, List.takeWhile_cons, specBatch,
        List.all_cons, Bool.true_and]
      rw [appendToKey_appendToKey]
      rfl
    · have hd2 : is_valid_description d = false := by
        cases hv : is_valid_description d
        · rfl
        · exact absurd hv hd
      simp [addLoop, hd2, List.takeWhile_cons, specBatch, appendToKey_nil, List.all_cons]

theorem specBatch_ne_nil {ds : List String} (h : ds ≠ []) (i : Int) :
    specBatch i ds ≠ [] := by
  cases ds with
  | nil => exact absurd rfl h
  | cons d rest => simp [specBatch]

end TodoList

namespace TodoList

/-! ### Preservation of the no-empty-group invariant -/

theorem noEmptyGroup_setVal {s : Store} (hs : noEmptyGroup s) {v : List Task}
    (hv : v ≠ []) (g : String) : noEmptyGroup (setVal s g v) := by
  intro p hp
  rcases mem_setVal hp with h1 | h1
  · exact hs p h1
  · rw [h1]; exact hv

theorem noEmptyGroup_eraseKey {s : Store} (hs : noEmptyGroup s) (g : String) :
    noEmptyGroup (eraseKey s g) :=
  fun p hp => hs p (mem_eraseKey hp)

theorem noEmptyGroup_appendToKey (g : String) (ts : List Task) :
    ∀ (s : Store), noEmptyGroup s → noEmptyGroup (appendToKey s g ts) := by
  intro s
  induction s with
  | nil => intro _ p hp; simp [appendToKey] at hp
  | cons e rest ih =>
    intro hs p hp
    have hsr : noEmptyGroup rest := fun q hq => hs q (List.mem_cons_of_mem e hq)
    by_cases he : e.1 = g
    · simp only [appendToKey, he, if_true] at hp
      rcases List.mem_cons.1 hp with h1 | h1
      · rw [h1]
        intro hc
        exact hs e (List.mem_cons_self e rest) (List.append_eq_nil.1 hc).1
      · exact hs p (List.mem_cons_of_mem e h1)
    · simp only [appendToKey, he, if_false] at hp
      rcases List.mem_cons.1 hp with h1 | h1
      · rw [h1]; exact hs e (List.mem_cons_self e rest)
      · exact ih hsr p h1

theorem getKey_ne_nil {s : Store} {g : String} (hs : noEmptyGroup s)
    (hg : hasKey s g = true) : getKey s g ≠ [] := by
  have h1 := lookup_eq_some_getKey hg
  obtain ⟨p, hp, hpg, hpv⟩ := lookup_mem h1
  rw [← hpv]
  exact hs p hp

/-! ### Lemmas about the edit_task loop -/

theorem editList_none (task_id : Int) (nd : String) :
    ∀ {l : List Task}, (∀ t ∈ l, t.id ≠ task_id) → editList task_id nd l = none := by
  intro l
  induction l with
  | nil => intro _; rfl
  | cons t rest ih =>
    intro h
    have ht : ¬(t.id = task_id) := h t (List.mem_cons_self t rest)
    simp only [editList, ht, if_false]
    rw [ih (fun u hu => h u (List.mem_cons_of_mem t hu))]
    rfl

theorem editList_length (task_id : Int) (nd : String) :
    ∀ {l l2 : List Task}, editList task_id nd l = some l2 → l2.length = l.length := by
  intro l
  induction l with
  | nil => intro l2 h; simp [editList] at h
  | cons t rest ih =>
    intro l2 h
    by_cases ht : t.id = task_id
    · simp only [editList, ht, if_true, Option.some.injEq] at h
      rw [← h]
      simp
    · simp only [editList, ht, if_false, Option.map_eq_some'] at h
      obtain ⟨l3, h3, h4⟩ := h
      rw [← h4]
      simp [ih h3]

theorem editList_decomp (task_id : Int) (nd : String) :
    ∀ (pre : List Task) (t : Task) (post : List Task), (∀ u ∈ pre, u.id ≠ task_id) →
      t.id = task_id →
      editList task_id nd (pre ++ t :: post) =
        some (pre ++ Task.mk t.id nd t.completed :: post) := by
  intro pre
  induction pre with
  | nil =>
    intro t post _ ht
    simp [editList, ht]
  | cons u rest ih =>
    intro t post h ht
    have hu : ¬(u.id = task_id) := h u (List.mem_cons_self u rest)
    show editList task_id nd (u :: (rest ++ t :: post)) =
      some (u :: (rest ++ Task.mk t.id nd t.completed :: post))
    simp only [editList, hu, if_false]
    rw [ih t post (fun w hw => h w (List.mem_cons_of_mem u hw)) ht]
    rfl

/-! ### Lemmas about marking and id parsing -/

theorem markOne_completed (ids : List Int) (t : Task) :
    (markOne ids t).completed = (ids.contains t.id || t.completed) := by
  unfold markOne
  cases h : ids.contains t.id <;> simp [h]

theorem mark_all_iff (ids : List Int) (l : List Task) :
    (l.map (markOne ids)).all (fun t => t.completed) = true ↔
      ∀ t ∈ l, t.completed = true ∨ ids.contains t.id = true := by
  simp only [List.all_eq_true, List.mem_map]
  constructor
  · intro h t ht
    have := h (markOne ids t) ⟨t, ht, rfl⟩
    rw [markOne_completed] at this
    rcases Bool.or_eq_true_iff.1 this with h1 | h1
    · right; exact h1
    · left; exact h1
  · intro h x hx
    obtain ⟨t, ht, hxt⟩ := hx
    rw [← hxt, markOne_completed]
    rcases h t ht with h1 | h1
    · rw [h1]; simp
    · rw [h1]; simp

theorem parseAllInts_none {entries : List (List Char)} {e : List Char}
    (he : e ∈ entries) (hbad : pythonInt (stripChars e) = none) :
    parseAllInts entries = none := by
  induction entries with
  | nil => simp at he
  | cons a rest ih =>
    rcases List.mem_cons.1 he with h1 | h1
    · subst h1
      simp [parseAllInts, hbad]
    · cases hx : pythonInt (stripChars a) <;> simp [parseAllInts, hx, ih h1]

/-! ### Characterization of add_tasks -/

theorem takeWhile_all {p : String → Bool} :
    ∀ {l : List String}, l.all p = true → l.takeWhile p = l := by
  intro l
  induction l with
  | nil => intro _; rfl
  | cons a rest ih =>
    intro h
    rw [List.all_cons, Bool.and_eq_true] at h
    simp [List.takeWhile_cons, h.1, ih h.2]

theorem lookup_fresh (s : Store) (g : String) :
    lookup (if hasKey s g then s else setVal s g []) g = some (getKey s g) := by
  by_cases h : hasKey s g
  · simp only [h, if_true]
    exact lookup_eq_some_getKey h
  · have hf : hasKey s g = false := by
      cases hv : hasKey s g
      · rfl
      · exact absurd hv h
    simp [hf, lookup_setVal_self, getKey_of_not_hasKey hf]

theorem getKey_fresh (s : Store) (g : String) :
    getKey (if hasKey s g then s else setVal s g []) g = getKey s g := by
  unfold getKey
  rw [lookup_fresh]
  rfl

theorem add_tasks_eq (s : Store) (g : String) (ds : List String)
    (hg : is_valid_group_name g = true) :
    add_tasks s g ds =
      if ds.all is_valid_description then
        ⟨appendToKey (if hasKey s g then s else setVal s g []) g
            (specBatch (listMaxId (getKey s g) + 1) ds),
          [appendToKey (if hasKey s g then s else setVal s g []) g
            (specBatch (listMaxId (getKey s g) + 1) ds)], none⟩
      else
        ⟨appendToKey (if hasKey s g then s else setVal s g []) g
            (specBatch (listMaxId (getKey s g) + 1) (ds.takeWhile is_valid_description)),
          [], some TMError.invalidDescription⟩ := by
  have hkey := getKey_fresh s g
  by_cases hall : ds.all is_valid_description = true
  · simp only [add_tasks, hg, if_true, hkey, addLoop_eq, hall, takeWhile_all hall]
  · have hf : ds.all is_valid_description = false := by
      cases hv : ds.all is_valid_description
      · rfl
      · exact absurd hv hall
    simp only [add_tasks, hg, if_true, hkey, addLoop_eq, hf, Bool.false_eq_true, if_false]

theorem add_tasks_lookup (s : Store) (g : String) (ds : List String)
    (hg : is_valid_group_name g = true) :
    lookup (add_tasks s g ds).store g =
      some (getKey s g ++
        specBatch (listMaxId (getKey s g) + 1) (ds.takeWhile is_valid_description)) := by
  rw [add_tasks_eq s g ds hg]
  by_cases hall : ds.all is_valid_description = true
  · rw [if_pos hall]
    rw [takeWhile_all hall] at *
    simp only [lookup_appendToKey_self, lookup_fresh, Option.map_some']
  · rw [if_neg hall]
    simp only [lookup_appendToKey_self, lookup_fresh, Option.map_some']

end TodoList

namespace TodoList

theorem eq_false_of_not_eq_true {b : Bool} (h : ¬(b = true)) : b = false := by
  cases b
  · rfl
  · exact absurd rfl h

/-! ### Branch equations for delete_tasks -/

theorem delete_tasks_eq_empty_confirm (s : Store) (g csv : String)
    (hg : hasKey s g = true) (hemp : remainingTasks s g csv = []) :
    delete_tasks true s g csv = ⟨eraseKey s g, [eraseKey s g], 1, true⟩ := by
  have hie : (remainingTasks s g csv).isEmpty = true := by rw [hemp]; rfl
  simp only [delete_tasks, hg, if_true, hie, eraseKey_setVal]

theorem delete_tasks_eq_empty_decline (s : Store) (g csv : String)
    (hg : hasKey s g = true) (hemp : remainingTasks s g csv = []) :
    delete_tasks false s g csv =
      ⟨setVal s g (remainingTasks s g csv), [setVal s g (remainingTasks s g csv)], 1, true⟩ := by
  have hie : (remainingTasks s g csv).isEmpty = true := by rw [hemp]; rfl
  simp only [delete_tasks, hg, if_true, hie, Bool.false_eq_true, if_false]

theorem delete_tasks_eq_nonempty (c : Bool) (s : Store) (g csv : String)
    (hg : hasKey s g = true) (hemp : remainingTasks s g csv ≠ []) :
    delete_tasks c s g csv =
      ⟨setVal s g (remainingTasks s g csv), [setVal s g (remainingTasks s g csv)], 0, true⟩ := by
  have hie : (remainingTasks s g csv).isEmpty = false := by
    cases hv : (remainingTasks s g csv).isEmpty
    · rfl
    · exact absurd (List.isEmpty_iff.1 hv) hemp
  simp only [delete_tasks, hg, if_true, hie, Bool.false_eq_true, if_false]

/-! ### Claim theorems -/

/-- C2: `validGroupName(name)` returns false exactly when the name contains
one of the characters of the class `[<>:"/\\|?*\x00-\x1F]` or, after
lowercasing, one of the eleven denylist words of FORBIDDEN_WORDS as a
substring; it returns true for every other string. -/
theorem C2_is_valid_group_name_iff (name : String) :
    is_valid_group_name name = false ↔
      ((∃ c ∈ name.data, c = '<' ∨ c = '>' ∨ c = ':' ∨ c = '"' ∨ c = '/' ∨ c = '\\' ∨
          c = '|' ∨ c = '?' ∨ c = '*' ∨ c.toNat ≤ 31) ∨
        (∃ w ∈ FORBIDDEN_WORDS, w.data <:+: lowerChars name)) := by
  have hb : ∀ b : Bool, ((!b) = false ↔ b = true) := by decide
  simp only [is_valid_group_name, hb, Bool.or_eq_true, List.any_eq_true, containsSub_iff,
    isForbiddenChar, decide_eq_true_eq, or_assoc]

/-- C3: `validDescription(text)` returns false exactly when the text is
longer than 200 characters or contains `http://` or `https://` (matched
case-sensitively) as a substring; forbidden characters and denylist words
in a description are irrelevant. -/
theorem C3_is_valid_description_iff (text : String) :
    is_valid_description text = false ↔
      (200 < text.data.length ∨ httpChars <:+: text.data ∨ httpsChars <:+: text.data) := by
  have hb : ∀ a b : Bool, ((a && b) = false ↔ a = false ∨ b = false) := by decide
  have hn : ∀ b : Bool, ((!b) = false ↔ b = true) := by decide
  rw [is_valid_description, hb]
  simp only [hn, urlSearch, Bool.or_eq_true, containsSub_iff, decide_eq_false_iff_not,
    Nat.not_le, MAX_DESCRIPTION_LENGTH, or_assoc]

/-- C9: load_data of a missing file yields the empty mapping with no error
report; a malformed (JSONDecodeError) read yields the empty mapping with a
reported error; and on every environment it returns a result (no exception
crosses the store boundary): the result is the empty mapping unless a
parse succeeded, in which case it is the parsed mapping. -/
theorem C9_load_data_total :
    (load_data FileRead.missing).store = [] ∧
    (load_data FileRead.missing).reported = false ∧
    (load_data (FileRead.parsed none)).store = [] ∧
    (load_data (FileRead.parsed none)).reported = true ∧
    (load_data FileRead.readError).store = [] ∧
    (∀ fr : FileRead, (load_data fr).store = [] ∨
      fr = FileRead.parsed (some (load_data fr).store)) := by
  refine ⟨rfl, rfl, rfl, rfl, rfl, ?_⟩
  intro fr
  cases fr with
  | missing => left; rfl
  | parsed r =>
    cases r with
    | none => left; rfl
    | some s2 => right; rfl
  | readError => left; rfl

end TodoList

namespace TodoList

/-- C4 counterexample: ids of deleted tasks CAN be reused. After
`addTasks("g", ["a","b"])` the group holds ids 1 and 2; `deleteTasks("g", "2")`
removes the task with id 2; a subsequent `addTasks("g", ["c"])` assigns
`max(existing ids) + 1 = 2` again, so the deleted id 2 reappears on the new
task — contradicting the claim that ids of deleted tasks are never reused. -/
theorem C4_counterexample_id_reuse :
    (add_tasks [] "g" ["a", "b"]).store = [("g", [⟨1, "a", false⟩, ⟨2, "b", false⟩])] ∧
    (delete_tasks false (add_tasks [] "g" ["a", "b"]).store "g" "2").store =
      [("g", [⟨1, "a", false⟩])] ∧
    (add_tasks (delete_tasks false (add_tasks [] "g" ["a", "b"]).store "g" "2").store
        "g" ["c"]).store =
      [("g", [⟨1, "a", false⟩, ⟨2, "c", false⟩])] := by
  exact ⟨by decide, by decide, by decide⟩

/-- C4 amended: whenever add_tasks succeeds (valid group name, all
descriptions valid), the new tasks are appended with consecutive ids
`max(existing ids in the group, default 0) + 1, + 2, ...` in description
order, the call persists exactly the resulting store, and on an empty store
`addTasks("g", ["a","b","c"])` yields ids 1,2,3 followed by id 4 for a
subsequent `addTasks("g", ["d"])`; but ids of deleted tasks can be reused
(see the counterexample) when a deletion lowers the group's maximum id. -/
theorem C4_consecutive_ids (s : Store) (g : String) (ds : List String)
    (hg : is_valid_group_name g = true) (hall : ds.all is_valid_description = true) :
    ((add_tasks s g ds).error = none ∧
      (add_tasks s g ds).saves = [(add_tasks s g ds).store] ∧
      lookup (add_tasks s g ds).store g =
        some (getKey s g ++ specBatch (listMaxId (getKey s g) + 1) ds)) ∧
    (add_tasks [] "g" ["a", "b", "c"]).store =
      [("g", [⟨1, "a", false⟩, ⟨2, "b", false⟩, ⟨3, "c", false⟩])] ∧
    (add_tasks (add_tasks [] "g" ["a", "b", "c"]).store "g" ["d"]).store =
      [("g", [⟨1, "a", false⟩, ⟨2, "b", false⟩, ⟨3, "c", false⟩, ⟨4, "d", false⟩])] := by
  refine ⟨⟨?_, ?_, ?_⟩, by decide, by decide⟩
  · rw [add_tasks_eq s g ds hg, if_pos hall]
  · rw [add_tasks_eq s g ds hg, if_pos hall]
  · have h := add_tasks_lookup s g ds hg
    rw [takeWhile_all hall] at h
    exact h

/-- C4 witness: the consecutive-id theorem applied at a concrete input. -/
theorem C4_consecutive_ids_witness :
    is_valid_group_name "w" = true ∧
    (["x", "y"] : List String).all is_valid_description = true ∧
    lookup (add_tasks [("w", [⟨3, "t", true⟩])] "w" ["x", "y"]).store "w" =
      some (getKey [("w", [⟨3, "t", true⟩])] "w" ++
        specBatch (listMaxId (getKey [("w", [⟨3, "t", true⟩])] "w") + 1) ["x", "y"]) :=
  ⟨by decide, by decide,
    (C4_consecutive_ids [("w", [⟨3, "t", true⟩])] "w" ["x", "y"]
      (by decide) (by decide)).1.2.2⟩

/-- C5: when the group name is valid but some description of the batch is
invalid, add_tasks raises InvalidDescription, writes no snapshot during the
call, and the tasks already built from the earlier valid descriptions (the
longest valid prefix of the batch) remain appended to the in-memory group,
with consecutive ids from `max + 1`. -/
theorem C5_partial_batch_on_invalid (s : Store) (g : String) (ds : List String)
    (hg : is_valid_group_name g = true) (hbad : ds.all is_valid_description = false) :
    (add_tasks s g ds).error = some TMError.invalidDescription ∧
    (add_tasks s g ds).saves = [] ∧
    lookup (add_tasks s g ds).store g =
      some (getKey s g ++
        specBatch (listMaxId (getKey s g) + 1) (ds.takeWhile is_valid_description)) := by
  have he : ¬(ds.all is_valid_description = true) := by
    rw [hbad]; exact Bool.false_ne_true
  refine ⟨?_, ?_, add_tasks_lookup s g ds hg⟩
  · rw [add_tasks_eq s g ds hg, if_neg he]
  · rw [add_tasks_eq s g ds hg, if_neg he]

/-- C5 witness: a failing batch on a concrete store keeps the valid prefix
in memory and persists nothing. -/
theorem C5_partial_batch_on_invalid_witness :
    is_valid_group_name "g" = true ∧
    (["a", "http://x", "b"] : List String).all is_valid_description = false ∧
    ((add_tasks [] "g" ["a", "http://x", "b"]).error = some TMError.invalidDescription ∧
      (add_tasks [] "g" ["a", "http://x", "b"]).saves = [] ∧
      lookup (add_tasks [] "g" ["a", "http://x", "b"]).store "g" =
        some (getKey [] "g" ++
          specBatch (listMaxId (getKey [] "g") + 1)
            ((["a", "http://x", "b"] : List String).takeWhile is_valid_description))) :=
  ⟨by decide, by decide,
    C5_partial_batch_on_invalid [] "g" ["a", "http://x", "b"] (by decide) (by decide)⟩

/-- C7 counterexample: a confirmed group deletion performs ONE persist, not
two, and the single persisted snapshot already reflects the removed group
(there is no intermediate persist of the emptied-but-present group):
deleting the only task of `g` with confirmation saves exactly `[{}]`. -/
theorem C7_counterexample_single_save :
    (delete_tasks true [("g", [⟨1, "a", false⟩])] "g" "1").saves = [([] : Store)] ∧
    ((delete_tasks true [("g", [⟨1, "a", false⟩])] "g" "1").saves).length ≠ 2 := by
  exact ⟨by decide, by decide⟩

/-- C7 amended: delete_tasks on an existing group removes exactly the tasks
whose ids occur in the parsed id list (non-numeric entries ignored), shows
the delete-group dialog exactly when the group became empty, and then
persists EXACTLY ONCE, at the end of the call, a snapshot equal to the final
store: with the group removed if it became empty and deletion was
confirmed, with the (possibly empty) filtered task list otherwise; other
groups are untouched. -/
theorem C7_delete_semantics (confirm : Bool) (s : Store) (g csv : String)
    (hn : keysNodup s) (hg : hasKey s g = true) :
    (delete_tasks confirm s g csv).saves = [(delete_tasks confirm s g csv).store] ∧
    (delete_tasks confirm s g csv).prompts =
      (if remainingTasks s g csv = [] then 1 else 0) ∧
    lookup (delete_tasks confirm s g csv).store g =
      (if remainingTasks s g csv = [] ∧ confirm = true then none
        else some (remainingTasks s g csv)) ∧
    (∀ k, k ≠ g → lookup (delete_tasks confirm s g csv).store k = lookup s k) := by
  by_cases hemp : remainingTasks s g csv = []
  · cases confirm with
    | false =>
      rw [delete_tasks_eq_empty_decline s g csv hg hemp]
      refine ⟨rfl, by rw [if_pos hemp], ?_, ?_⟩
      · rw [if_neg (fun h => Bool.false_ne_true h.2), lookup_setVal_self]
      · intro k hk
        exact lookup_setVal_ne hk s (remainingTasks s g csv)
    | true =>
      rw [delete_tasks_eq_empty_confirm s g csv hg hemp]
      refine ⟨rfl, by rw [if_pos hemp], ?_, ?_⟩
      · rw [if_pos ⟨hemp, rfl⟩]
        exact lookup_eraseKey_self hn
      · intro k hk
        exact lookup_eraseKey_ne hk s
  · rw [delete_tasks_eq_nonempty confirm s g csv hg hemp]
    refine ⟨rfl, by rw [if_neg hemp], ?_, ?_⟩
    · rw [if_neg (fun h => hemp h.1), lookup_setVal_self]
    · intro k hk
      exact lookup_setVal_ne hk s (remainingTasks s g csv)

/-- C7 witness: the amended delete semantics applied at a concrete store. -/
theorem C7_delete_semantics_witness :
    keysNodup [("g", [⟨1, "a", false⟩, ⟨2, "b", false⟩])] ∧
    hasKey [("g", [⟨1, "a", false⟩, ⟨2, "b", false⟩])] "g" = true ∧
    ((delete_tasks true [("g", [⟨1, "a", false⟩, ⟨2, "b", false⟩])] "g" "1").saves =
        [(delete_tasks true [("g", [⟨1, "a", false⟩, ⟨2, "b", false⟩])] "g" "1").store] ∧
      (delete_tasks true [("g", [⟨1, "a", false⟩, ⟨2, "b", false⟩])] "g" "1").prompts =
        (if remainingTasks [("g", [⟨1, "a", false⟩, ⟨2, "b", false⟩])] "g" "1" = []
          then 1 else 0) ∧
      lookup (delete_tasks true [("g", [⟨1, "a", false⟩, ⟨2, "b", false⟩])] "g" "1").store
          "g" =
        (if remainingTasks [("g", [⟨1, "a", false⟩, ⟨2, "b", false⟩])] "g" "1" = [] ∧
            true = true
          then none
          else some (remainingTasks [("g", [⟨1, "a", false⟩, ⟨2, "b", false⟩])] "g" "1")) ∧
      (∀ k, k ≠ "g" →
        lookup (delete_tasks true [("g", [⟨1, "a", false⟩, ⟨2, "b", false⟩])] "g" "1").store
            k =
          lookup [("g", [⟨1, "a", false⟩, ⟨2, "b", false⟩])] k)) :=
  ⟨by unfold keysNodup; decide, by decide,
    C7_delete_semantics true [("g", [⟨1, "a", false⟩, ⟨2, "b", false⟩])] "g" "1"
      (by unfold keysNodup; decide) (by decide)⟩

end TodoList

namespace TodoList

/-- C8: edit_task with an invalid new description raises
InvalidDescription and touches nothing; with an unknown group or an id not
present in the group it reports a soft failure, mutates nothing, and writes
no snapshot (so the persisted document is untouched); otherwise it replaces
exactly the description of the (first) task with that id in place and
persists the result once. -/
theorem C8_edit_task_semantics (s : Store) (g : String) (task_id : Int) (nd : String) :
    (is_valid_description nd = false →
      edit_task s g task_id nd = ⟨s, [], EditOutcome.invalidDescription⟩) ∧
    (is_valid_description nd = true → hasKey s g = false →
      edit_task s g task_id nd = ⟨s, [], EditOutcome.groupNotFound⟩) ∧
    (is_valid_description nd = true → hasKey s g = true →
      (∀ t ∈ getKey s g, t.id ≠ task_id) →
      edit_task s g task_id nd = ⟨s, [], EditOutcome.taskNotFound⟩) ∧
    (∀ pre t post, is_valid_description nd = true → hasKey s g = true →
      getKey s g = pre ++ t :: post → (∀ u ∈ pre, u.id ≠ task_id) → t.id = task_id →
      ((edit_task s g task_id nd).outcome = EditOutcome.ok ∧
        (edit_task s g task_id nd).saves = [(edit_task s g task_id nd).store] ∧
        lookup (edit_task s g task_id nd).store g =
          some (pre ++ Task.mk t.id nd t.completed :: post) ∧
        (∀ k, k ≠ g → lookup (edit_task s g task_id nd).store k = lookup s k))) := by
  refine ⟨?_, ?_, ?_, ?_⟩
  · intro hv
    simp [edit_task, hv]
  · intro hv hk
    simp [edit_task, hv, hk]
  · intro hv hk hnone
    simp [edit_task, hv, hk, editList_none task_id nd hnone]
  · intro pre t post hv hk hdec hpre ht
    have he : editList task_id nd (getKey s g) =
        some (pre ++ Task.mk t.id nd t.completed :: post) := by
      rw [hdec]
      exact editList_decomp task_id nd pre t post hpre ht
    refine ⟨?_, ?_, ?_, ?_⟩
    · simp [edit_task, hv, hk, he]
    · simp [edit_task, hv, hk, he]
    · simp [edit_task, hv, hk, he, lookup_setVal_self]
    · intro k hkg
      simp [edit_task, hv, hk, he, lookup_setVal_ne hkg]

/-- C8 witness: the edit semantics applied at a concrete store, hitting the
successful in-place replacement branch. -/
theorem C8_edit_task_semantics_witness :
    is_valid_description "z" = true ∧
    hasKey [("g", [⟨1, "a", false⟩, ⟨2, "b", true⟩])] "g" = true ∧
    getKey [("g", [⟨1, "a", false⟩, ⟨2, "b", true⟩])] "g" =
      [⟨1, "a", false⟩] ++ ⟨2, "b", true⟩ :: [] ∧
    ((edit_task [("g", [⟨1, "a", false⟩, ⟨2, "b", true⟩])] "g" 2 "z").outcome =
        EditOutcome.ok ∧
      (edit_task [("g", [⟨1, "a", false⟩, ⟨2, "b", true⟩])] "g" 2 "z").saves =
        [(edit_task [("g", [⟨1, "a", false⟩, ⟨2, "b", true⟩])] "g" 2 "z").store] ∧
      lookup (edit_task [("g", [⟨1, "a", false⟩, ⟨2, "b", true⟩])] "g" 2 "z").store "g" =
        some ([⟨1, "a", false⟩] ++ Task.mk 2 "z" true :: []) ∧
      (∀ k, k ≠ "g" →
        lookup (edit_task [("g", [⟨1, "a", false⟩, ⟨2, "b", true⟩])] "g" 2 "z").store k =
          lookup [("g", [⟨1, "a", false⟩, ⟨2, "b", true⟩])] k)) :=
  ⟨by decide, by decide, by decide,
    (C8_edit_task_semantics [("g", [⟨1, "a", false⟩, ⟨2, "b", true⟩])] "g" 2 "z").2.2.2
      [⟨1, "a", false⟩] ⟨2, "b", true⟩ [] (by decide) (by decide) (by decide)
      (by decide) (by decide)⟩

/-- C10: when the comma-separated id list handed to mark_tasks_complete on
an existing group contains an entry that `int()` cannot parse (empty,
letters, ...), the call raises an uncaught ValueError before mutating or
persisting anything; delete_tasks on the same input instead filters such
entries out via the isdigit guard and proceeds to mutate and persist. -/
theorem C10_mark_value_error_delete_proceeds (confirm : Bool) (s : Store) (g csv : String)
    (hg : hasKey s g = true)
    (hbad : ∃ e ∈ splitOnComma csv.data, pythonInt (stripChars e) = none) :
    mark_tasks_complete confirm s g csv = ⟨s, [], 0, MarkOutcome.valueError⟩ ∧
    (delete_tasks confirm s g csv).saves = [(delete_tasks confirm s g csv).store] ∧
    (delete_tasks confirm s g csv).groupFound = true := by
  obtain ⟨e, he, hpe⟩ := hbad
  have hp := parseAllInts_none he hpe
  refine ⟨by simp [mark_tasks_complete, hg, hp], ?_⟩
  by_cases hemp : remainingTasks s g csv = []
  · cases confirm with
    | false =>
      rw [delete_tasks_eq_empty_decline s g csv hg hemp]
      exact ⟨rfl, rfl⟩
    | true =>
      rw [delete_tasks_eq_empty_confirm s g csv hg hemp]
      exact ⟨rfl, rfl⟩
  · rw [delete_tasks_eq_nonempty confirm s g csv hg hemp]
    exact ⟨rfl, rfl⟩

/-- C10 witness: with the unparsable id list "x" the marking call raises
ValueError untouched while the deleting call proceeds and persists. -/
theorem C10_mark_value_error_delete_proceeds_witness :
    hasKey [("g", [⟨1, "a", false⟩])] "g" = true ∧
    (∃ e ∈ splitOnComma ("x" : String).data, pythonInt (stripChars e) = none) ∧
    (mark_tasks_complete false [("g", [⟨1, "a", false⟩])] "g" "x" =
        ⟨[("g", [⟨1, "a", false⟩])], [], 0, MarkOutcome.valueError⟩ ∧
      (delete_tasks false [("g", [⟨1, "a", false⟩])] "g" "x").saves =
        [(delete_tasks false [("g", [⟨1, "a", false⟩])] "g" "x").store] ∧
      (delete_tasks false [("g", [⟨1, "a", false⟩])] "g" "x").groupFound = true) :=
  ⟨by decide, by decide,
    C10_mark_value_error_delete_proceeds false [("g", [⟨1, "a", false⟩])] "g" "x"
      (by decide) (by decide)⟩

/-- C6: on an existing group and a parseable id list, mark_tasks_complete
shows the delete-group dialog exactly once when, after setting the listed
tasks to completed, every task of the group is completed (i.e. every task
was already completed or is listed), and never when some task of the group
is still incomplete after the call. -/
theorem C6_mark_prompt_once (confirm : Bool) (s : Store) (g csv : String) (ids : List Int)
    (hg : hasKey s g = true) (hp : parseAllInts (splitOnComma csv.data) = some ids) :
    ((∀ t ∈ getKey s g, t.completed = true ∨ ids.contains t.id = true) →
      (mark_tasks_complete confirm s g csv).prompts = 1) ∧
    (¬(∀ t ∈ getKey s g, t.completed = true ∨ ids.contains t.id = true) →
      (mark_tasks_complete confirm s g csv).prompts = 0) := by
  constructor
  · intro hall
    have ha : ((getKey s g).map (markOne ids)).all (fun t => t.completed) = true :=
      (mark_all_iff ids (getKey s g)).2 hall
    cases confirm with
    | false => simp [mark_tasks_complete, hg, hp, ha]
    | true => simp [mark_tasks_complete, hg, hp, ha]
  · intro hnall
    have ha : ((getKey s g).map (markOne ids)).all (fun t => t.completed) = false := by
      cases hv : ((getKey s g).map (markOne ids)).all (fun t => t.completed)
      · rfl
      · exact absurd ((mark_all_iff ids (getKey s g)).1 hv) hnall
    simp [mark_tasks_complete, hg, hp, ha]

/-- C6 witness: marking the single incomplete task of a two-task group
(the other already complete) fires the dialog exactly once. -/
theorem C6_mark_prompt_once_witness :
    hasKey [("g", [⟨1, "a", false⟩, ⟨2, "b", true⟩])] "g" = true ∧
    parseAllInts (splitOnComma ("1" : String).data) = some [1] ∧
    (∀ t ∈ getKey [("g", [⟨1, "a", false⟩, ⟨2, "b", true⟩])] "g",
      t.completed = true ∨ ([1] : List Int).contains t.id = true) ∧
    (mark_tasks_complete false [("g", [⟨1, "a", false⟩, ⟨2, "b", true⟩])] "g" "1").prompts =
      1 :=
  ⟨by decide, by decide, by decide,
    (C6_mark_prompt_once false [("g", [⟨1, "a", false⟩, ⟨2, "b", true⟩])] "g" "1" [1]
      (by decide) (by decide)).1 (by decide)⟩

end TodoList

namespace TodoList

/-- C1 counterexample: a persisted snapshot CAN contain a group mapped to an
empty task list. Deleting the only task of group `g` and declining the
delete-group confirmation makes delete_tasks call save_data on a store in
which `g` is present with zero tasks: the snapshot written is exactly
`{"g": []}`. -/
theorem C1_counterexample_empty_group_persisted :
    (delete_tasks false [("g", [⟨1, "a", false⟩])] "g" "1").saves = [[("g", [])]] ∧
    ∃ snap ∈ (delete_tasks false [("g", [⟨1, "a", false⟩])] "g" "1").saves,
      lookup snap "g" = some [] := by
  exact ⟨by decide, by decide⟩

/-- C1 amended: starting from a store with no empty group, every snapshot
persisted by add_tasks (on a nonempty batch), edit_task,
mark_tasks_complete, or delete_tasks with the delete-group confirmation
answered yes, again has no empty group — in particular a failing add_tasks
persists nothing during the call; the one exception is delete_tasks that
empties a group and has its confirmation declined: its (single) persisted
snapshot maps that group to the empty task list. -/
theorem C1_empty_group_persistence (s : Store) (hs : noEmptyGroup s) :
    (∀ g ds, ds ≠ ([] : List String) →
      ∀ snap ∈ (add_tasks s g ds).saves, noEmptyGroup snap) ∧
    (∀ g task_id nd, ∀ snap ∈ (edit_task s g task_id nd).saves, noEmptyGroup snap) ∧
    (∀ c g csv, ∀ snap ∈ (mark_tasks_complete c s g csv).saves, noEmptyGroup snap) ∧
    (∀ g csv, ∀ snap ∈ (delete_tasks true s g csv).saves, noEmptyGroup snap) ∧
    (∀ g csv, hasKey s g = true → remainingTasks s g csv = [] →
      ∃ snap ∈ (delete_tasks false s g csv).saves, lookup snap g = some []) := by
  refine ⟨?_, ?_, ?_, ?_, ?_⟩
  · intro g ds hds snap hsnap
    by_cases hgv : is_valid_group_name g = true
    · rw [add_tasks_eq s g ds hgv] at hsnap
      by_cases hall : ds.all is_valid_description = true
      · rw [if_pos hall] at hsnap
        rw [List.mem_singleton] at hsnap
        subst hsnap
        by_cases hk : hasKey s g = true
        · rw [if_pos hk]
          exact noEmptyGroup_appendToKey g _ s hs
        · have hkf : hasKey s g = false := eq_false_of_not_eq_true hk
          rw [if_neg hk, setVal_of_not_hasKey hkf, appendToKey_append_absent hkf]
          intro p hp
          rcases List.mem_append.1 hp with h1 | h1
          · exact hs p h1
          · rw [List.mem_singleton] at h1
            rw [h1]
            show ([] ++ specBatch (listMaxId (getKey s g) + 1) ds) ≠ []
            rw [List.nil_append]
            exact specBatch_ne_nil hds _
      · rw [if_neg hall] at hsnap
        simp at hsnap
    · have hgf : is_valid_group_name g = false := eq_false_of_not_eq_true hgv
      simp [add_tasks, hgf] at hsnap
  · intro g task_id nd snap hsnap
    by_cases hv : is_valid_description nd = true
    · by_cases hk : hasKey s g = true
      · cases hEL : editList task_id nd (getKey s g) with
        | none => simp [edit_task, hv, hk, hEL] at hsnap
        | some ts =>
          simp [edit_task, hv, hk, hEL] at hsnap
          subst hsnap
          have hlen := editList_length task_id nd hEL
          have hne : ts ≠ [] := by
            intro hc
            have h0 : (getKey s g).length = 0 := by
              rw [← hlen, hc]
              rfl
            exact getKey_ne_nil hs hk (List.length_eq_zero.1 h0)
          exact noEmptyGroup_setVal hs hne g
      · have hkf := eq_false_of_not_eq_true hk
        simp [edit_task, hv, hkf] at hsnap
    · have hvf := eq_false_of_not_eq_true hv
      simp [edit_task, hvf] at hsnap
  · intro c g csv snap hsnap
    by_cases hk : hasKey s g = true
    · cases hPA : parseAllInts (splitOnComma csv.data) with
      | none => simp [mark_tasks_complete, hk, hPA] at hsnap
      | some ids =>
        have hne : (getKey s g).map (markOne ids) ≠ [] := by
          intro hc
          exact getKey_ne_nil hs hk (List.map_eq_nil_iff.1 hc)
        have hs1 : noEmptyGroup (setVal s g ((getKey s g).map (markOne ids))) :=
          noEmptyGroup_setVal hs hne g
        by_cases hall : ((getKey s g).map (markOne ids)).all (fun t => t.completed) = true
        · cases c with
          | false =>
            simp [mark_tasks_complete, hk, hPA, hall] at hsnap
            rw [hsnap]
            exact hs1
          | true =>
            simp [mark_tasks_complete, hk, hPA, hall] at hsnap
            rcases hsnap with h1 | h1
            · rw [h1]
              exact hs1
            · rw [h1]
              exact noEmptyGroup_eraseKey hs1 g
        · have hallf := eq_false_of_not_eq_true hall
          simp [mark_tasks_complete, hk, hPA, hallf] at hsnap
          rw [hsnap]
          exact hs1
    · have hkf := eq_false_of_not_eq_true hk
      simp [mark_tasks_complete, hkf] at hsnap
  · intro g csv snap hsnap
    by_cases hk : hasKey s g = true
    · by_cases hemp : remainingTasks s g csv = []
      · rw [delete_tasks_eq_empty_confirm s g csv hk hemp] at hsnap
        rw [List.mem_singleton] at hsnap
        rw [hsnap]
        exact noEmptyGroup_eraseKey hs g
      · rw [delete_tasks_eq_nonempty true s g csv hk hemp] at hsnap
        rw [List.mem_singleton] at hsnap
        rw [hsnap]
        exact noEmptyGroup_setVal hs hemp g
    · have hkf := eq_false_of_not_eq_true hk
      simp [delete_tasks, hkf] at hsnap
  · intro g csv hk hemp
    rw [delete_tasks_eq_empty_decline s g csv hk hemp]
    refine ⟨setVal s g (remainingTasks s g csv), List.mem_singleton_self _, ?_⟩
    rw [lookup_setVal_self, hemp]

/-- C1 witness: the amended persistence theorem applied at a concrete
store, exhibiting the declined-confirmation clause. -/
theorem C1_empty_group_persistence_witness :
    noEmptyGroup [("g", [⟨1, "a", false⟩])] ∧
    hasKey [("g", [⟨1, "a", false⟩])] "g" = true ∧
    remainingTasks [("g", [⟨1, "a", false⟩])] "g" "1" = [] ∧
    ∃ snap ∈ (delete_tasks false [("g", [⟨1, "a", false⟩])] "g" "1").saves,
      lookup snap "g" = some [] :=
  ⟨by unfold noEmptyGroup; decide, by decide, by decide,
    (C1_empty_group_persistence [("g", [⟨1, "a", false⟩])]
      (by unfold noEmptyGroup; decide)).2.2.2.2 "g" "1" (by decide) (by decide)⟩

end TodoList
